import Mathlib

/-!
Verification of the search-and-replace block-editor plugin.

The embedding below follows the repository sources:
- `src/src/core/shortcut.tsx`: `getTextBlocks`, `getAllowedBlocks`,
  `getAllowedBlocksAndFields`, `getEditorRoot`, `isWpVersion`,
  `getNumberToBase10`;
- `src/unnamed/part_000`: `SearchReplaceToolbarIcon`.

JavaScript runtime values that flow through the WordPress filter hooks are
modelled by the `JSVal` type; object property values that the code reads are
strings, so object properties are modelled as string-valued.
-/

/-- A JavaScript value as it can appear in the output of a filter hook:
a string, a number, `undefined`, or an object given by its own
(string-valued) properties. -/
inductive JSVal where
  | str (s : String)
  | num (n : Int)
  | undefined
  | obj (props : List (String × String))
deriving DecidableEq, Repr

/-- Property test `v.hasOwnProperty(key)` in the non-throwing cases: only
objects carry the properties we model; a primitive string or number has no
own `name` property.  Calling `hasOwnProperty` on `undefined` throws a
TypeError in JavaScript — that error path is modelled by `JSVal.hasOwnE`. -/
def JSVal.hasOwn (v : JSVal) (key : String) : Bool :=
  match v with
  | .obj props => props.any (fun p => p.1 == key)
  | _ => false

/-- Property access `v[key]`, yielding `undefined` when absent. -/
def JSVal.getProp (v : JSVal) (key : String) : JSVal :=
  match v with
  | .obj props =>
      match props.find? (fun p => p.1 == key) with
      | some p => .str p.2
      | none => .undefined
  | _ => .undefined

/-- A registered block type, as returned by `getBlockTypes()`:
the two attributes the code reads are `name` and `category`. -/
structure BlockType where
  name : String
  category : String
deriving DecidableEq, Repr

/-- The hook runner `applyFilters(hookName, default)`: when a filter is registered it is
applied to the default value, otherwise the default is returned.
A hook is modelled as an optional function on hook values. -/
def applyFilters (hook : Option (List JSVal → List JSVal))
    (dflt : List JSVal) : List JSVal :=
  match hook with
  | some f => f dflt
  | none => dflt

/-- Function `getTextBlocks` from `src/src/core/shortcut.tsx`:
`getBlockTypes().filter(b => !!(b?.category === 'text')).map(b => b?.name)`. -/
def getTextBlocks (registry : List BlockType) : List String :=
  (registry.filter (fun block => block.category == "text")).map
    (fun block => block.name)

/-- The default value fed to both filter hooks: the text-block names,
as JavaScript strings. -/
def textBlocksJS (registry : List BlockType) : List JSVal :=
  (getTextBlocks registry).map JSVal.str

/-- Function `getAllowedBlocksAndFields` from `src/src/core/shortcut.tsx`:
`applyFilters('search-replace-for-block-editor.allowedBlocksAndFields', getTextBlocks())`. -/
def getAllowedBlocksAndFields
    (hookBF : Option (List JSVal → List JSVal))
    (registry : List BlockType) : List JSVal :=
  applyFilters hookBF (textBlocksJS registry)

/-- The mapping applied to each entry of `getAllowedBlocksAndFields()` inside
`getAllowedBlocks`: `b => { if (b.hasOwnProperty('name')) return b.name; }` —
an entry without an own `name` property maps to `undefined`. -/
def fieldEntryName (b : JSVal) : JSVal :=
  if b.hasOwn "name" then b.getProp "name" else .undefined

/-- Function `getAllowedBlocks` from `src/src/core/shortcut.tsx`: the output of the
`allowedBlocks` filter (defaulting to the text blocks) concatenated with the
`name`s of the `allowedBlocksAndFields` filter output. -/
def getAllowedBlocks
    (hookAB : Option (List JSVal → List JSVal))
    (hookBF : Option (List JSVal → List JSVal))
    (registry : List BlockType) : List JSVal :=
  let blocks := applyFilters hookAB (textBlocksJS registry)
  let fieldBlocks := (getAllowedBlocksAndFields hookBF registry).map fieldEntryName
  blocks ++ fieldBlocks

/-- The message of the TypeError thrown by
`undefined.hasOwnProperty('name')`. -/
def hasOwnTypeError : String :=
  "TypeError: Cannot read properties of undefined (reading hasOwnProperty)"

/-- Property test `v.hasOwnProperty(key)` with JavaScript exception
semantics: on `undefined` the call throws a TypeError; on every other value
it succeeds (primitives are boxed by the runtime) with the result of
`JSVal.hasOwn`. -/
def JSVal.hasOwnE (v : JSVal) (key : String) : Except String Bool :=
  match v with
  | .undefined => .error hasOwnTypeError
  | _ => .ok (v.hasOwn key)

/-- The mapping `b => { if (b.hasOwnProperty('name')) return b.name; }`
with JavaScript exception semantics: the `hasOwnProperty` call throws on an
`undefined` entry. -/
def fieldEntryNameE (b : JSVal) : Except String JSVal :=
  match b.hasOwnE "name" with
  | .error e => .error e
  | .ok has => .ok (if has then b.getProp "name" else .undefined)

/-- Application of `fieldEntryNameE` to the entries of a filter output in
index order, as `Array.prototype.map` evaluates its callback: the first
thrown TypeError aborts the whole map. -/
def mapFieldEntriesE : List JSVal → Except String (List JSVal)
  | [] => .ok []
  | b :: rest =>
      match fieldEntryNameE b with
      | .error e => .error e
      | .ok v =>
          match mapFieldEntriesE rest with
          | .error e => .error e
          | .ok vs => .ok (v :: vs)

/-- Function `getAllowedBlocks` with JavaScript exception semantics: the
same computation as `getAllowedBlocks`, but the map over the
`allowedBlocksAndFields` output propagates the TypeError thrown by
`block.hasOwnProperty('name')` on an `undefined` entry. -/
def getAllowedBlocksE
    (hookAB : Option (List JSVal → List JSVal))
    (hookBF : Option (List JSVal → List JSVal))
    (registry : List BlockType) : Except String (List JSVal) :=
  let blocks := applyFilters hookAB (textBlocksJS registry)
  match mapFieldEntriesE (getAllowedBlocksAndFields hookBF registry) with
  | .error e => .error e
  | .ok fieldBlocks => .ok (blocks ++ fieldBlocks)

/-- The ambient host state the utility functions could in principle read:
the block-type registry, the two eligibility filter hooks, the per-tick
result of the editor-toolbar `querySelector` polling, and the reported
WordPress version. -/
structure World where
  registry : List BlockType
  allowedBlocksHook : Option (List JSVal → List JSVal)
  allowedBlocksAndFieldsHook : Option (List JSVal → List JSVal)
  docMatches : Nat → Option Nat
  wpVersion : String

/-- Reading `getAllowedBlocks` against the full host state. -/
def getAllowedBlocksW (w : World) : List JSVal :=
  getAllowedBlocks w.allowedBlocksHook w.allowedBlocksAndFieldsHook w.registry

/-- Reading `getTextBlocks` against the full host state. -/
def getTextBlocksW (w : World) : List String :=
  getTextBlocks w.registry

/-- The rejection message of `getEditorRoot`. -/
def editorRootErrorMsg : String := "Unable to get Editor root container..."

/-- The polling loop of `getEditorRoot`: at tick `k` (the k-th firing of the
100 ms interval) the elapsed time is `100 * k`; the tick first queries the
selector (`docMatches k`, `some e` when the toolbar element `e` is present)
and resolves on a hit, and otherwise rejects once `elapsedTime > 600 * 100`,
clearing the interval in either case.  A resolve in the same tick as the
timeout wins, because the promise is already settled when `reject` runs. -/
def getEditorRootAux (polls : Nat → Option Nat) (k : Nat) : Except String Nat :=
  match polls k with
  | some e => .ok e
  | none =>
      if 100 * k > 600 * 100 then .error editorRootErrorMsg
      else getEditorRootAux polls (k + 1)
termination_by 601 - k
decreasing_by
  simp only [gt_iff_lt, not_lt] at *
  omega

/-- Function `getEditorRoot` from `src/src/core/shortcut.tsx`, as a function of the
sequence of `document.querySelector` results at each poll: the interval
starts at tick 1 with `elapsedTime = 100`. -/
def getEditorRoot (polls : Nat → Option Nat) : Except String Nat :=
  getEditorRootAux polls 1

/-- The `edit` component of a block's settings: either an original edit
implementation of the host, or the wrapper built by
`SearchReplaceToolbarIcon` (the `Fragment` holding the toolbar button and
invoking the original `edit`). -/
inductive EditImpl where
  | base (id : Nat)
  | wrapped (orig : EditImpl)
deriving DecidableEq, Repr

/-- A block-settings object as seen by the `blocks.registerBlockType`
filter: its `name`, its `edit` component, and all its remaining fields. -/
structure BlockSettings where
  name : JSVal
  edit : EditImpl
  extra : List (String × JSVal)
deriving Repr

/-- Function `SearchReplaceToolbarIcon` from `src/unnamed/part_000`: when
`getAllowedBlocks().indexOf(name) === -1` the settings are returned
untouched; otherwise `settings.edit` is replaced by the wrapper around the
original `edit` and the (same) settings object is returned. -/
def SearchReplaceToolbarIcon
    (hookAB hookBF : Option (List JSVal → List JSVal))
    (registry : List BlockType)
    (settings : BlockSettings) : BlockSettings :=
  if settings.name ∈ getAllowedBlocks hookAB hookBF registry then
    { settings with edit := .wrapped settings.edit }
  else
    settings

/-- The body of the `reduce` in `getNumberToBase10`: `n` is the length of
the whole array, `acc` the accumulated sum, `i` the index of the head of
the remaining list. -/
def getNumberToBase10Go (n : Nat) (acc : Int) (i : Nat) : List Int → Int
  | [] => acc
  | v :: rest => getNumberToBase10Go n (acc + v * 10 ^ (n - 1 - i)) (i + 1) rest

/-- Function `getNumberToBase10` from `src/src/core/shortcut.tsx`:
`values.reduce((sum, value, index) => sum + value * 10 ** (values.length - 1 - index), 0)`. -/
def getNumberToBase10 (values : List Int) : Int :=
  getNumberToBase10Go values.length 0 0 values

/-- Splitting `version.split('.')` on the version string's character sequence:
splits into the maximal groups between `'.'` separators (so `"6.6"` gives
`["6", "6"]` and an empty string gives `[""]`, as in JavaScript). -/
def splitOnDot (s : List Char) : List (List Char) :=
  match s with
  | [] => [[]]
  | c :: rest =>
      if c = '.' then [] :: splitOnDot rest
      else
        match splitOnDot rest with
        | [] => [[c]]
        | group :: groups => (c :: group) :: groups

/-- Conversion `Number(s)` restricted to the decimal digit strings produced by
splitting a version string: the numeric value of the digits. -/
def jsNumber (s : List Char) : Int :=
  s.foldl (fun acc c => acc * 10 + (Int.ofNat c.toNat - 48)) 0

/-- The value a version string is mapped to inside `isWpVersion`:
`getNumberToBase10(version.split('.').map(Number))`. -/
def versionValue (version : List Char) : Int :=
  getNumberToBase10 ((splitOnDot version).map jsNumber)

/-- Function `isWpVersion` from `src/src/core/shortcut.tsx`: compares the base-10
collapse of the system version `srfbe.wpVersion` with that of the argument
and returns `!(sysVersion < argVersion)`. -/
def isWpVersion (wpVersion : List Char) (version : List Char) : Bool :=
  !(versionValue wpVersion < versionValue version)

/-- Modelled from the spec: whether the query `q` occurs in the text `t`
at character offset `i` (the Match Locator is not among the provided
sources; §4.3 describes a straightforward substring scan). -/
def occursAt (t q : List Char) (i : Nat) : Bool :=
  (t.drop i).take q.length == q

/-- Modelled from the spec: locate the next occurrence of `q` in `t` at an
offset `≥ i` (leftmost-first), `none` when there is no further occurrence. -/
def findFrom (t q : List Char) (i : Nat) : Option Nat :=
  if i + q.length > t.length then none
  else if occursAt t q i then some i
  else findFrom t q (i + 1)
termination_by t.length + 1 - i

/-- Modelled from the spec: the scan loop of `findAll` — repeatedly locate
the next occurrence of the query starting the search at the previous match
end, recording `(offset, length)` descriptors.  `fuel` bounds the number of
iterations; `findAll` supplies enough fuel for every position of the text. -/
def findAllAux (t q : List Char) : Nat → Nat → List (Nat × Nat)
  | 0, _ => []
  | fuel + 1, i =>
      match findFrom t q i with
      | none => []
      | some j => (j, q.length) :: findAllAux t q fuel (j + q.length)

/-- Modelled from the spec: `findAll(text, query, caseSensitive)` (§4.3) —
an empty query yields zero matches; otherwise a non-overlapping
leftmost-first substring scan, comparing case-normalized copies when
`caseSensitive` is false while reporting offsets against the original
text (case normalization maps each character to lower case, preserving
positions). -/
def findAll (text query : List Char) (caseSensitive : Bool) : List (Nat × Nat) :=
  if query = [] then []
  else
    let t := if caseSensitive then text else text.map Char.toLower
    let q := if caseSensitive then query else query.map Char.toLower
    findAllAux t q (t.length + 1) 0

lemma map_fieldEntryName_str (l : List String) :
    (l.map JSVal.str).map fieldEntryName = List.replicate l.length JSVal.undefined := by
  induction l with
  | nil => rfl
  | cons s rest ih => simp [fieldEntryName, JSVal.hasOwn, ih, List.replicate_succ]

/-- C1: `getTextBlocks` returns exactly the names of the registered block
types whose category is `"text"`: a name is in the result iff some
registered block with that name has category `"text"`, and the result is a
sublist of the registry's names (registry order). -/
theorem getTextBlocks_spec (registry : List BlockType) :
    (∀ name : String, name ∈ getTextBlocks registry ↔
        ∃ b ∈ registry, b.category = "text" ∧ b.name = name)
    ∧ List.Sublist (getTextBlocks registry) (registry.map BlockType.name) := by
  constructor
  · intro name
    simp only [getTextBlocks, List.mem_map, List.mem_filter, beq_iff_eq]
    constructor
    · rintro ⟨b, ⟨hb, hc⟩, hn⟩
      exact ⟨b, hb, hc, hn⟩
    · rintro ⟨b, hb, hc, hn⟩
      exact ⟨b, ⟨hb, hc⟩, hn⟩
  · exact List.Sublist.map _ (List.filter_sublist _)

/-- C2: `getAllowedBlocks` composes the two rule sources by union — it is
exactly the output of the `allowedBlocks` filter concatenated with the
`name` of every entry of the `allowedBlocksAndFields` filter output
(`undefined` for an entry without a `name`), and contains nothing else. -/
theorem getAllowedBlocks_union (registry : List BlockType)
    (f1 f2 : List JSVal → List JSVal) :
    getAllowedBlocks (some f1) (some f2) registry
      = f1 (textBlocksJS registry) ++ (f2 (textBlocksJS registry)).map fieldEntryName
    ∧ ∀ x : JSVal, x ∈ getAllowedBlocks (some f1) (some f2) registry ↔
        x ∈ f1 (textBlocksJS registry)
        ∨ ∃ e ∈ f2 (textBlocksJS registry), fieldEntryName e = x := by
  refine ⟨rfl, ?_⟩
  intro x
  simp [getAllowedBlocks, getAllowedBlocksAndFields, applyFilters]

/-- C3: with no filters registered, `getAllowedBlocksAndFields` defaults to
the text-block name strings, and since a string has no own `name` property
`getAllowedBlocks` appends one `undefined` per text block: the result has
length `2 * n` and its last `n` entries are all `undefined`. -/
theorem getAllowedBlocks_default_undefined (registry : List BlockType) :
    getAllowedBlocksAndFields none registry = textBlocksJS registry
    ∧ (getAllowedBlocks none none registry).length = 2 * (getTextBlocks registry).length
    ∧ (getAllowedBlocks none none registry).drop (getTextBlocks registry).length
        = List.replicate (getTextBlocks registry).length JSVal.undefined := by
  refine ⟨rfl, ?_, ?_⟩
  · simp [getAllowedBlocks, getAllowedBlocksAndFields, applyFilters, textBlocksJS, two_mul]
  · have h : getAllowedBlocks none none registry
        = textBlocksJS registry
          ++ List.replicate (getTextBlocks registry).length JSVal.undefined := by
      show textBlocksJS registry ++ (textBlocksJS registry).map fieldEntryName = _
      rw [textBlocksJS, map_fieldEntryName_str]
    rw [h]
    have hlen : (getTextBlocks registry).length = (textBlocksJS registry).length := by
      simp [textBlocksJS]
    rw [hlen, List.drop_left]

/-- C5 (as stated) is false: the code performs no validation of filter
outputs, so a non-string entry returned by the `allowedBlocks` filter
appears in `getAllowedBlocks()` and the default text-block names do not,
when the filter output dropped them. -/
theorem allowed_malformed_counterexample :
    JSVal.num 42 ∈ getAllowedBlocks (some fun _ => [JSVal.num 42]) none
        [⟨"core/paragraph", "text"⟩]
    ∧ JSVal.str "core/paragraph" ∉ getAllowedBlocks (some fun _ => [JSVal.num 42]) none
        [⟨"core/paragraph", "text"⟩] := by
  decide

lemma fieldEntryNameE_eq (b : JSVal) (hb : b ≠ .undefined) :
    fieldEntryNameE b = .ok (fieldEntryName b) := by
  cases b with
  | undefined => exact absurd rfl hb
  | str s => rfl
  | num n => rfl
  | obj p => rfl

lemma mapFieldEntriesE_ok (l : List JSVal) (h : JSVal.undefined ∉ l) :
    mapFieldEntriesE l = .ok (l.map fieldEntryName) := by
  induction l with
  | nil => rfl
  | cons b rest ih =>
    have hb : b ≠ JSVal.undefined := fun hb =>
      h (hb ▸ List.mem_cons_self b rest)
    have hr : JSVal.undefined ∉ rest := fun hm =>
      h (List.mem_cons_of_mem b hm)
    rw [mapFieldEntriesE, fieldEntryNameE_eq b hb, ih hr]
    rfl

lemma mapFieldEntriesE_error (l : List JSVal) (h : JSVal.undefined ∈ l) :
    mapFieldEntriesE l = .error hasOwnTypeError := by
  induction l with
  | nil => simp at h
  | cons b rest ih =>
    by_cases hb : b = JSVal.undefined
    · subst hb
      rfl
    · have hr : JSVal.undefined ∈ rest := by
        rcases List.mem_cons.mp h with h1 | h2
        · exact absurd h1.symm hb
        · exact h2
      rw [mapFieldEntriesE, fieldEntryNameE_eq b hb, ih hr]

/-- C5 (amended): malformed filter entries are neither ignored nor replaced
by the default — both filter outputs are used verbatim: a non-string entry
of the `allowedBlocks` output appears unchanged in the result (the default
text-block names appear only when that output retains them), a non-string
entry of the `allowedBlocksAndFields` output contributes its `name`
property value (`undefined` for a primitive without one), and an
`undefined` entry in the `allowedBlocksAndFields` output makes
`getAllowedBlocks` throw a TypeError at `block.hasOwnProperty('name')` —
a hard failure. -/
theorem allowed_malformed_behavior (registry : List BlockType)
    (outAB outBF : List JSVal) :
    (JSVal.undefined ∉ outBF →
      getAllowedBlocksE (some fun _ => outAB) (some fun _ => outBF) registry
        = .ok (outAB ++ outBF.map fieldEntryName))
    ∧ (JSVal.undefined ∈ outBF →
      getAllowedBlocksE (some fun _ => outAB) (some fun _ => outBF) registry
        = .error hasOwnTypeError) := by
  constructor
  · intro h
    show (match mapFieldEntriesE outBF with
      | Except.error e => Except.error e
      | Except.ok fieldBlocks => Except.ok (outAB ++ fieldBlocks)) = _
    rw [mapFieldEntriesE_ok outBF h]
  · intro h
    show (match mapFieldEntriesE outBF with
      | Except.error e => Except.error e
      | Except.ok fieldBlocks => Except.ok (outAB ++ fieldBlocks)) = _
    rw [mapFieldEntriesE_error outBF h]

/-- Witness for C5 (amended): a numeric entry in the `allowedBlocks` output
passes through verbatim and a numeric entry in the
`allowedBlocksAndFields` output contributes `undefined`, while an
`undefined` entry in the latter raises the TypeError. -/
theorem allowed_malformed_behavior_witness :
    getAllowedBlocksE (some fun _ => [JSVal.num 42]) (some fun _ => [JSVal.num 7])
        [⟨"core/paragraph", "text"⟩]
      = .ok [JSVal.num 42, JSVal.undefined]
    ∧ getAllowedBlocksE (some fun _ => [JSVal.num 42])
        (some fun _ => [JSVal.undefined]) [⟨"core/paragraph", "text"⟩]
      = .error hasOwnTypeError :=
  ⟨(allowed_malformed_behavior [⟨"core/paragraph", "text"⟩]
      [JSVal.num 42] [JSVal.num 7]).1 (by decide),
   (allowed_malformed_behavior [⟨"core/paragraph", "text"⟩]
      [JSVal.num 42] [JSVal.undefined]).2 (by decide)⟩

/-- C6: eligibility computation is pure and deterministic — the results of
`getAllowedBlocks` and `getTextBlocks` depend only on the type registry and
the two rule-provider hooks, not on any other part of the host state, so
two calls against states agreeing on those inputs return identical lists. -/
theorem eligibility_pure (w1 w2 : World)
    (hreg : w1.registry = w2.registry)
    (hab : w1.allowedBlocksHook = w2.allowedBlocksHook)
    (hbf : w1.allowedBlocksAndFieldsHook = w2.allowedBlocksAndFieldsHook) :
    getAllowedBlocksW w1 = getAllowedBlocksW w2
    ∧ getTextBlocksW w1 = getTextBlocksW w2 := by
  constructor
  · simp [getAllowedBlocksW, hreg, hab, hbf]
  · simp [getTextBlocksW, hreg]

/-- Witness for C6: two host states differing in document polling results
and reported WordPress version yield identical eligibility lists. -/
theorem eligibility_pure_witness :
    getAllowedBlocksW ⟨[⟨"core/paragraph", "text"⟩], none, none, fun _ => none, "6.6"⟩
      = getAllowedBlocksW ⟨[⟨"core/paragraph", "text"⟩], none, none, fun _ => some 5, "6.5"⟩
    ∧ getTextBlocksW ⟨[⟨"core/paragraph", "text"⟩], none, none, fun _ => none, "6.6"⟩
      = getTextBlocksW ⟨[⟨"core/paragraph", "text"⟩], none, none, fun _ => some 5, "6.5"⟩ :=
  eligibility_pure _ _ rfl rfl rfl

lemma getEditorRootAux_error (polls : Nat → Option Nat) :
    ∀ m k, 601 - k ≤ m → 1 ≤ k → k ≤ 601 →
    (∀ j, k ≤ j → j ≤ 601 → polls j = none) →
    getEditorRootAux polls k = .error editorRootErrorMsg := by
  intro m
  induction m with
  | zero =>
    intro k hm h1 h601 hall
    have hk : k = 601 := by omega
    subst hk
    rw [getEditorRootAux, hall 601 le_rfl le_rfl]
    norm_num
  | succ m ih =>
    intro k hm h1 h601 hall
    by_cases hk : k = 601
    · subst hk
      rw [getEditorRootAux, hall 601 le_rfl le_rfl]
      norm_num
    · have hk600 : k ≤ 600 := by omega
      rw [getEditorRootAux, hall k le_rfl h601]
      simp only [gt_iff_lt]
      rw [if_neg (by omega)]
      exact ih (k + 1) (by omega) (by omega) (by omega)
        (fun j hj hj2 => hall j (by omega) hj2)

lemma getEditorRootAux_ok (polls : Nat → Option Nat) (k e : Nat)
    (hk601 : k ≤ 601) (hsome : polls k = some e) :
    ∀ m k0, k - k0 ≤ m → 1 ≤ k0 → k0 ≤ k →
    (∀ j, k0 ≤ j → j < k → polls j = none) →
    getEditorRootAux polls k0 = .ok e := by
  intro m
  induction m with
  | zero =>
    intro k0 hm h1 hk0k hall
    have : k0 = k := by omega
    subst this
    rw [getEditorRootAux, hsome]
  | succ m ih =>
    intro k0 hm h1 hk0k hall
    by_cases he : k0 = k
    · subst he
      rw [getEditorRootAux, hsome]
    · have hlt : k0 < k := by omega
      rw [getEditorRootAux, hall k0 le_rfl hlt]
      simp only [gt_iff_lt]
      rw [if_neg (by omega)]
      exact ih (k0 + 1) (by omega) (by omega) (by omega)
        (fun j hj hj2 => hall j (by omega) hj2)

/-- C4: `getEditorRoot` polls at a fixed 100 ms interval with a fixed upper
bound: if the toolbar selector never matches during the bounded window, the
promise is rejected with an Error at the first tick whose elapsed time
exceeds 600 intervals (tick 601), so it never retries indefinitely; if the
selector matches at some poll before that, the promise resolves with the
matched element. -/
theorem getEditorRoot_bounded (polls : Nat → Option Nat) :
    ((∀ k, 1 ≤ k → k ≤ 601 → polls k = none) →
      getEditorRoot polls = .error editorRootErrorMsg)
    ∧ (∀ k e, 1 ≤ k → k ≤ 601 → polls k = some e →
        (∀ j, 1 ≤ j → j < k → polls j = none) →
        getEditorRoot polls = .ok e) := by
  constructor
  · intro hall
    exact getEditorRootAux_error polls 601 1 (by omega) le_rfl (by omega)
      (fun j hj hj2 => hall j hj hj2)
  · intro k e h1 h601 hsome hnone
    exact getEditorRootAux_ok polls k e h601 hsome k 1 (by omega) le_rfl h1
      (fun j hj hj2 => hnone j hj hj2)

/-- Witness for C4: a document where the selector never matches rejects
with the error, and one where it matches at the third poll resolves with
that element. -/
theorem getEditorRoot_bounded_witness :
    getEditorRoot (fun _ => none) = .error editorRootErrorMsg
    ∧ getEditorRoot (fun k => if k = 3 then some 7 else none) = .ok 7 :=
  ⟨(getEditorRoot_bounded (fun _ => none)).1 (fun _ _ _ => rfl),
   (getEditorRoot_bounded (fun k => if k = 3 then some 7 else none)).2 3 7
     (by omega) (by omega) (by decide)
     (fun j hj1 hj2 => by rw [if_neg (by omega)])⟩

lemma findFrom_spec (t q : List Char) :
    ∀ m i j, t.length + 1 - i ≤ m → findFrom t q i = some j →
    i ≤ j ∧ j + q.length ≤ t.length ∧ occursAt t q j = true := by
  intro m
  induction m with
  | zero =>
    intro i j hm hf
    rw [findFrom, if_pos (by omega)] at hf
    exact absurd hf (by simp)
  | succ m ih =>
    intro i j hm hf
    rw [findFrom] at hf
    by_cases hb : i + q.length > t.length
    · rw [if_pos hb] at hf
      exact absurd hf (by simp)
    · rw [if_neg hb] at hf
      by_cases ho : occursAt t q i = true
      · rw [if_pos ho] at hf
        obtain rfl : i = j := by exact Option.some.inj hf
        exact ⟨le_rfl, by omega, ho⟩
      · rw [if_neg ho] at hf
        obtain ⟨h1, h2, h3⟩ := ih (i + 1) j (by omega) hf
        exact ⟨by omega, h2, h3⟩

lemma findAllAux_mem (t q : List Char) :
    ∀ fuel i p, p ∈ findAllAux t q fuel i →
      i ≤ p.1 ∧ p.2 = q.length ∧ occursAt t q p.1 = true := by
  intro fuel
  induction fuel with
  | zero =>
    intro i p hp
    simp [findAllAux] at hp
  | succ fuel ih =>
    intro i p hp
    rw [findAllAux] at hp
    cases hff : findFrom t q i with
    | none =>
      rw [hff] at hp
      simp at hp
    | some j =>
      rw [hff] at hp
      obtain hspec := findFrom_spec t q (t.length + 1) i j (by omega) hff
      simp only [List.mem_cons] at hp
      rcases hp with rfl | hp
      · exact ⟨hspec.1, rfl, hspec.2.2⟩
      · obtain ⟨h1, h2, h3⟩ := ih (j + q.length) p hp
        exact ⟨by omega, h2, h3⟩

lemma findAllAux_pairwise (t q : List Char) (hq : q ≠ []) :
    ∀ fuel i, List.Pairwise (fun a b : Nat × Nat => a.1 + a.2 ≤ b.1 ∧ a.1 < b.1)
      (findAllAux t q fuel i) := by
  have hql : 1 ≤ q.length := by
    cases q with
    | nil => exact absurd rfl hq
    | cons c rest => simp
  intro fuel
  induction fuel with
  | zero =>
    intro i
    simp [findAllAux]
  | succ fuel ih =>
    intro i
    rw [findAllAux]
    cases hff : findFrom t q i with
    | none => simp
    | some j =>
      refine List.pairwise_cons.mpr ⟨?_, ih (j + q.length)⟩
      intro b hb
      have hmem := findAllAux_mem t q fuel (j + q.length) b hb
      exact ⟨hmem.1, by omega⟩

/-- C7: for every text and non-empty query, the case-sensitive `findAll`
returns descriptors that are pairwise non-overlapping
(`a.offset + a.length ≤ b.offset` for a descriptor `a` before `b`), ordered
by strictly ascending offset, and whose recorded substring of the text
equals the query. -/
theorem findAll_sound (t q : List Char) (hq : q ≠ []) :
    List.Pairwise (fun a b : Nat × Nat => a.1 + a.2 ≤ b.1 ∧ a.1 < b.1)
      (findAll t q true)
    ∧ ∀ p ∈ findAll t q true, (t.drop p.1).take p.2 = q := by
  have hunfold : findAll t q true = findAllAux t q (t.length + 1) 0 := by
    simp [findAll, hq]
  constructor
  · rw [hunfold]
    exact findAllAux_pairwise t q hq _ 0
  · intro p hp
    rw [hunfold] at hp
    obtain ⟨h1, h2, h3⟩ := findAllAux_mem t q _ 0 p hp
    rw [h2]
    simpa [occursAt] using h3

/-- Witness for C7 at the text `"abcabcab"` and query `"abc"`. -/
theorem findAll_sound_witness :
    List.Pairwise (fun a b : Nat × Nat => a.1 + a.2 ≤ b.1 ∧ a.1 < b.1)
      (findAll ['a', 'b', 'c', 'a', 'b', 'c', 'a', 'b'] ['a', 'b', 'c'] true)
    ∧ ∀ p ∈ findAll ['a', 'b', 'c', 'a', 'b', 'c', 'a', 'b'] ['a', 'b', 'c'] true,
        ((['a', 'b', 'c', 'a', 'b', 'c', 'a', 'b'] : List Char).drop p.1).take p.2
          = ['a', 'b', 'c'] :=
  findAll_sound ['a', 'b', 'c', 'a', 'b', 'c', 'a', 'b'] ['a', 'b', 'c'] (by decide)

/-- C8: an empty query yields zero matches for every text and either value
of the case-sensitivity flag — it never matches everything. -/
theorem findAll_empty_query (t : List Char) (cs : Bool) :
    findAll t [] cs = [] := by
  simp [findAll]

lemma wrapped_ne (e : EditImpl) : EditImpl.wrapped e ≠ e := by
  induction e with
  | base id => simp
  | wrapped e ih =>
    intro h
    injection h with h2
    exact ih h2

/-- C9: `SearchReplaceToolbarIcon` frames its effect to the `edit` field of
eligible blocks: settings whose `name` is not in `getAllowedBlocks()` are
returned with every field unchanged; for an eligible block only `edit` is
replaced (by the wrapper around the original `edit`) and every other field
is unchanged. -/
theorem toolbarIcon_frame (hookAB hookBF : Option (List JSVal → List JSVal))
    (registry : List BlockType) (s : BlockSettings) :
    (s.name ∉ getAllowedBlocks hookAB hookBF registry →
      SearchReplaceToolbarIcon hookAB hookBF registry s = s)
    ∧ (s.name ∈ getAllowedBlocks hookAB hookBF registry →
        (SearchReplaceToolbarIcon hookAB hookBF registry s).edit
            = .wrapped s.edit
        ∧ (SearchReplaceToolbarIcon hookAB hookBF registry s).edit ≠ s.edit
        ∧ (SearchReplaceToolbarIcon hookAB hookBF registry s).name = s.name
        ∧ (SearchReplaceToolbarIcon hookAB hookBF registry s).extra = s.extra) := by
  constructor
  · intro h
    simp [SearchReplaceToolbarIcon, h]
  · intro h
    simp [SearchReplaceToolbarIcon, h, wrapped_ne]

/-- Witness for C9: with the default hooks and a registry whose only text
block is `core/paragraph`, the settings of `core/image` pass through
unchanged, while the settings of `core/paragraph` get a wrapped `edit` and
keep their `name` and remaining fields. -/
theorem toolbarIcon_frame_witness :
    SearchReplaceToolbarIcon none none [⟨"core/paragraph", "text"⟩]
        ⟨JSVal.str "core/image", .base 1, []⟩
      = ⟨JSVal.str "core/image", .base 1, []⟩
    ∧ (SearchReplaceToolbarIcon none none [⟨"core/paragraph", "text"⟩]
        ⟨JSVal.str "core/paragraph", .base 0, [("title", JSVal.str "P")]⟩).edit
      = .wrapped (.base 0)
    ∧ (SearchReplaceToolbarIcon none none [⟨"core/paragraph", "text"⟩]
        ⟨JSVal.str "core/paragraph", .base 0, [("title", JSVal.str "P")]⟩).extra
      = [("title", JSVal.str "P")] :=
  ⟨(toolbarIcon_frame none none [⟨"core/paragraph", "text"⟩]
      ⟨JSVal.str "core/image", .base 1, []⟩).1 (by decide),
   ((toolbarIcon_frame none none [⟨"core/paragraph", "text"⟩]
      ⟨JSVal.str "core/paragraph", .base 0, [("title", JSVal.str "P")]⟩).2
      (by decide)).1,
   ((toolbarIcon_frame none none [⟨"core/paragraph", "text"⟩]
      ⟨JSVal.str "core/paragraph", .base 0, [("title", JSVal.str "P")]⟩).2
      (by decide)).2.2.2⟩

/-- The positional sum `v0 * 10^(n-1) + v1 * 10^(n-2) + ... + v(n-1) * 10^0`. -/
def base10Spec : List Int → Int
  | [] => 0
  | v :: rest => v * 10 ^ rest.length + base10Spec rest

lemma getNumberToBase10Go_eq (l : List Int) :
    ∀ (n : Nat) (acc : Int) (i : Nat), n = i + l.length →
    getNumberToBase10Go n acc i l = acc + base10Spec l := by
  induction l with
  | nil =>
    intro n acc i h
    simp [getNumberToBase10Go, base10Spec]
  | cons v rest ih =>
    intro n acc i h
    rw [getNumberToBase10Go, ih n _ (i + 1) (by simp at h; omega)]
    have hexp : n - 1 - i = rest.length := by simp at h; omega
    rw [base10Spec, hexp]
    ring

lemma getNumberToBase10_eq_spec (l : List Int) :
    getNumberToBase10 l = base10Spec l := by
  have h := getNumberToBase10Go_eq l l.length 0 0 (by simp)
  simpa [getNumberToBase10] using h

lemma base10Spec_eq_sum (l : List Int) :
    base10Spec l
      = ∑ i in Finset.range l.length, l.getD i 0 * 10 ^ (l.length - 1 - i) := by
  induction l with
  | nil => simp [base10Spec]
  | cons v rest ih =>
    rw [base10Spec, ih, List.length_cons, Finset.sum_range_succ']
    have h0 : (v :: rest).getD 0 0 * (10 : Int) ^ (rest.length + 1 - 1 - 0)
        = v * 10 ^ rest.length := by
      simp
    have hsucc : ∀ i ∈ Finset.range rest.length,
        (v :: rest).getD (i + 1) 0 * (10 : Int) ^ (rest.length + 1 - 1 - (i + 1))
          = rest.getD i 0 * 10 ^ (rest.length - 1 - i) := by
      intro i hi
      rw [List.getD_cons_succ]
      have he : rest.length + 1 - 1 - (i + 1) = rest.length - 1 - i := by omega
      rw [he]
    rw [Finset.sum_congr rfl hsucc, h0]
    ring

/-- C10: `getNumberToBase10` maps a digit list `[v0, ..., v(n-1)]` to the
exact integer sum of `v_i * 10^(n-1-i)` (so `[5, 6, 1]` to `561`), and
`isWpVersion(v)` is true iff the system version's value under this map is
not less than the argument's; the comparison therefore disagrees with
numeric version ordering across component counts: system `"6.6"` against
argument `"6.6.0"` compares `66` against `660` and returns `false`. -/
theorem versionCompare_base10 :
    (∀ values : List Int,
      getNumberToBase10 values
        = ∑ i in Finset.range values.length,
            values.getD i 0 * 10 ^ (values.length - 1 - i))
    ∧ getNumberToBase10 [5, 6, 1] = 561
    ∧ (∀ wpVersion version : List Char,
        isWpVersion wpVersion version = true
          ↔ versionValue version ≤ versionValue wpVersion)
    ∧ versionValue ['6', '.', '6'] = 66
    ∧ versionValue ['6', '.', '6', '.', '0'] = 660
    ∧ isWpVersion ['6', '.', '6'] ['6', '.', '6', '.', '0'] = false := by
  refine ⟨?_, by decide, ?_, by decide, by decide, by decide⟩
  · intro values
    rw [getNumberToBase10_eq_spec, base10Spec_eq_sum]
  · intro wp v
    simp [isWpVersion, not_lt]
